import Mathlib

/-!
Verification of the translation-pipeline pool of apertium-apy (servlet.py).

The definitions below are a shallow embedding of the functions of
servlet.py that manage the per-pair pipeline pool, the request statistics,
the unknown-word mark stripping, the startup locale check and the langpair
argument parsing.  Machine state that servlet.py keeps in class attributes
(`pipelines`, `pipelines_holding`, `stats`) is passed explicitly.
-/

namespace Apy

/-- Embeds the bookkeeping fields of a `translation.Pipeline` object that
servlet.py reads: `users` (current in-flight requests), `useCount`
(completed translations) and `lastUsage` (wall-clock timestamp, seconds).
`pid` stands for the Python object identity, so that structurally equal
records model distinct objects only when their `pid`s differ. -/
structure Pipeline where
  pid : Nat
  users : Nat
  useCount : Nat
  lastUsage : Int
deriving DecidableEq, Repr

/-- The pool configuration knobs of `BaseHandler` (servlet.py lines 115-119),
set from the CLI by `setupHandler`.  `max_idle_secs` is an `Int` because the
CLI parses it with `type=int`, which admits negative values. -/
structure Config where
  max_pipes_per_pair : Nat
  min_pipes_per_pair : Nat
  max_users_per_pipe : Nat
  max_idle_secs : Int
  restart_pipe_after : Nat
deriving DecidableEq, Repr

/-- Modelled from the spec: the pool heap is ordered by ascending `users`,
ties broken by ascending `lastUsage` (spec section 3, PairPool).  The
`Pipeline` ordering used by `heapq` is defined in translation.py, which is
not under src/. -/
def pipeLE (p q : Pipeline) : Bool :=
  decide (p.users < q.users) || (decide (p.users = q.users) && decide (p.lastUsage ≤ q.lastUsage))

/-- Embeds `heapq.heappush` on a pool list, abstracted as order-preserving
insertion: the heap's observable front (`pipes[0]`) is its minimum. -/
def heappush : List Pipeline → Pipeline → List Pipeline
  | [], p => [p]
  | q :: qs, p => if pipeLE p q then p :: q :: qs else q :: heappush qs p

/-- Embeds `heapq.heapify`, abstracted as sorting by `pipeLE`. -/
def heapify (l : List Pipeline) : List Pipeline :=
  l.foldr (fun p acc => heappush acc p) []

/-- Embeds `TranslateHandler.shouldStartPipe` (servlet.py lines 337-350).
The caller resolves `self.pipelines.get((l1, l2), [])`, so an absent pool
entry arrives here as `[]`.  Note the code requires `min_p.users` to be
STRICTLY greater than `max_users_per_pipe`. -/
def shouldStartPipe (cfg : Config) (pipes : List Pipeline) : Bool :=
  match pipes with
  | [] => true
  | min_p :: rest =>
    decide (rest.length + 1 < cfg.max_pipes_per_pair) && decide (cfg.max_users_per_pipe < min_p.users)

/-- Embeds `TranslateHandler.getPipeline` (servlet.py lines 352-360) acting
on one pair's pool: when `shouldStartPipe` holds, the pipeline freshly made
by `translation.makePipeline` (here the parameter `newPipe`) is heap-pushed;
the returned pipe is `self.pipelines[pair][0]`. -/
def getPipeline (cfg : Config) (pipes : List Pipeline) (newPipe : Pipeline) :
    List Pipeline × Option Pipeline :=
  let pipes1 := if shouldStartPipe cfg pipes then heappush pipes newPipe else pipes
  (pipes1, pipes1.head?)

/-- Embeds `TranslateHandler.cleanable` (servlet.py lines 300-313): `i` is
the pipe's index in the heap list, `now` is `time.time()`.  The idle branch
tests `max_idle_secs != 0`, not positivity. -/
def cleanable (cfg : Config) (now : Int) (i : Nat) (pipe : Pipeline) : Bool :=
  if cfg.restart_pipe_after < pipe.useCount then true
  else if cfg.min_pipes_per_pair ≤ i ∧ cfg.max_idle_secs ≠ 0 ∧
      cfg.max_idle_secs < now - pipe.lastUsage then true
  else false

/-- Embeds the comprehension `set(p for i, p in enumerate(pipes) if
self.cleanable(i, pair, p))` of `cleanPairs` (servlet.py line 318), with the
enumeration index threaded explicitly. -/
def to_clean_aux (cfg : Config) (now : Int) (i : Nat) : List Pipeline → List Pipeline
  | [] => []
  | p :: ps =>
    if cleanable cfg now i p then p :: to_clean_aux cfg now (i + 1) ps
    else to_clean_aux cfg now (i + 1) ps

/-- The pipes of one pool scheduled for eviction by `cleanPairs`. -/
def to_clean (cfg : Config) (now : Int) (pipes : List Pipeline) : List Pipeline :=
  to_clean_aux cfg now 0 pipes

/-- Embeds the body of the `for pair in self.pipelines` loop of
`TranslateHandler.cleanPairs` (servlet.py lines 316-322) on one pool:
returns the surviving pool (filtered, then re-heapified) and the evicted
pipes that are appended to `pipelines_holding`. -/
def cleanOnePool (cfg : Config) (now : Int) (pipes : List Pipeline) :
    List Pipeline × List Pipeline :=
  let tc := to_clean cfg now pipes
  (heapify (pipes.filter (fun p => decide (p ∉ tc))), tc)

/-- The mutable pool state of the handler: `pipelines` is the per-pair pool
map (association list), `holding` is `pipelines_holding`. -/
structure PoolState where
  pipelines : List ((List Char × List Char) × List Pipeline)
  holding : List Pipeline
deriving DecidableEq, Repr

/-- Embeds `TranslateHandler.cleanPairs` (servlet.py lines 315-329): every
pool is cleaned via `cleanOnePool`, the evicted pipes are appended to the
holding area, and finally the holding area keeps only pipes with
`users > 0`. -/
def cleanPairs (cfg : Config) (now : Int) (st : PoolState) : PoolState :=
  let cleaned := st.pipelines.map (fun kv => (kv.1, cleanOnePool cfg now kv.2))
  let holding1 := st.holding ++ (cleaned.map (fun kv => kv.2.2)).flatten
  { pipelines := cleaned.map (fun kv => (kv.1, kv.2.1)),
    holding := holding1.filter (fun p => decide (0 < p.users)) }

/-- The two pool operations over which claim C6 quantifies, restricted to a
single pair's pool (both `getPipeline` and the per-pool body of `cleanPairs`
act on each pool independently). -/
inductive PairOp where
  | getPipe (newPipe : Pipeline)
  | clean (now : Int)
deriving DecidableEq, Repr

/-- One pool operation on a single pair's pool. -/
def stepPair (cfg : Config) (pipes : List Pipeline) : PairOp → List Pipeline
  | PairOp.getPipe np => (getPipeline cfg pipes np).1
  | PairOp.clean now => (cleanOnePool cfg now pipes).1

/-- A sequence of pool operations on a single pair's pool. -/
def runPair (cfg : Config) (pipes : List Pipeline) (ops : List PairOp) : List Pipeline :=
  ops.foldl (stepPair cfg) pipes

theorem heappush_length (l : List Pipeline) (p : Pipeline) :
    (heappush l p).length = l.length + 1 := by
  induction l with
  | nil => rfl
  | cons q qs ih =>
    simp only [heappush]
    split <;> simp [ih]

theorem heappush_mem {x p : Pipeline} {l : List Pipeline} :
    x ∈ heappush l p ↔ x = p ∨ x ∈ l := by
  induction l with
  | nil => simp [heappush]
  | cons q qs ih =>
    simp only [heappush]
    split
    · simp [or_comm, or_left_comm]
    · simp [ih, or_comm, or_left_comm]

theorem heapify_length (l : List Pipeline) : (heapify l).length = l.length := by
  induction l with
  | nil => rfl
  | cons q qs ih =>
    simp only [heapify, List.foldr] at ih ⊢
    rw [heappush_length, ih, List.length_cons]

theorem heapify_mem {x : Pipeline} {l : List Pipeline} : x ∈ heapify l ↔ x ∈ l := by
  induction l with
  | nil => simp [heapify]
  | cons q qs ih =>
    simp only [heapify, List.foldr] at ih ⊢
    rw [heappush_mem, ih, List.mem_cons, or_comm]

/-- A language pair `(l1, l2)` of canonicalized codes, as the tuple keys of
`self.pipelines` and `self.stats['useCount']`. -/
abbrev PairKey := List Char × List Char

/-- The request statistics the translate path mutates: `stats['useCount']`
(a dict with absent keys read as 0, modelled as a total function) and
`stats['timing']` (list of `(before, after, length)` samples; dates are
modelled as integer timestamps). -/
structure ReqStats where
  useCount : PairKey → Nat
  timing : List (Int × Int × Nat)

/-- Embeds `TranslateHandler.notePairUsage` (servlet.py lines 282-283):
`stats['useCount'][pair] = 1 + stats['useCount'].get(pair, 0)`. -/
def notePairUsage (stats : ReqStats) (pair : PairKey) : ReqStats :=
  { stats with
    useCount := fun q => if q = pair then 1 + stats.useCount q else stats.useCount q }

/-- Embeds `TranslateHandler.logAfterTranslation` (servlet.py lines 365-377)
acting on `stats['timing']`: when the response status is 200, pop the
oldest sample if it is older than `STAT_PERIOD_MAX_AGE` (`maxAge`), then
append the new sample; otherwise the list is untouched.  `now` stands for
`datetime.now()`, `before` for the start time, `n` for the input length. -/
def logAfterTranslation (maxAge now before : Int) (n : Nat) (status : Nat)
    (timing : List (Int × Int × Nat)) : List (Int × Int × Nat) :=
  if status = 200 then
    let oldest : Int := match timing with | [] => now | t :: _ => t.1
    let timing1 := if maxAge < now - oldest then timing.tail else timing
    timing1 ++ [(before, now, n)]
  else timing

/-- A character admitted inside the capture group of `unknownMarkRE`, whose
pattern is the raw string regex star-capture of one or more characters not
in the set period, comma, semicolon, colon, tab, star, space (servlet.py
line 285). -/
def tokenChar (c : Char) : Bool :=
  !(c == '.' || c == ',' || c == ';' || c == ':' || c == '\t' || c == '*' || c == ' ')

/-- The left-to-right scan shared by `re.findall` and `re.sub` over
`unknownMarkRE`: at each position a match requires a star followed by a
nonempty greedy run of `tokenChar`s; the first component collects the
captured groups (`re.findall`), the second rebuilds the text with each
match replaced by its captured group (`re.sub` with replacement group 1). -/
def scanUnknown : List Char → List (List Char) × List Char
  | [] => ([], [])
  | c :: cs =>
    if c == '*' && !(cs.takeWhile tokenChar).isEmpty then
      let tok := cs.takeWhile tokenChar
      let rest := scanUnknown (cs.dropWhile tokenChar)
      (tok :: rest.1, tok ++ rest.2)
    else
      let rest := scanUnknown cs
      (rest.1, c :: rest.2)
termination_by l => l.length
decreasing_by
  · have h := congrArg List.length (List.takeWhile_append_dropWhile (p := tokenChar) (l := cs))
    rw [List.length_append] at h
    simp only [List.length_cons, Nat.lt_succ_iff]
    omega
  · simp

/-- `re.findall(unknownMarkRE, text)`: the captured unknown tokens. -/
def reFindall (text : List Char) : List (List Char) := (scanUnknown text).1

/-- `re.sub(unknownMarkRE, group-1, text)`: the text with the leading star
stripped from every matched token. -/
def reSubStrip (text : List Char) : List Char := (scanUnknown text).2

/-- Embeds `TranslateHandler.noteUnknownTokens` (servlet.py lines 294-298):
when a missing-tokens store is configured (`missingFreqsDb is not None`),
every token found by `unknownMarkRE` is recorded tagged with the pair
string. -/
def noteUnknownTokens (storeConfigured : Bool) (pairStr text : List Char) :
    List (List Char × List Char) :=
  if storeConfigured then (reFindall text).map (fun tok => (tok, pairStr)) else []

/-- Embeds `TranslateHandler.maybeStripMarks` (servlet.py lines 287-292):
returns the tokens recorded by `noteUnknownTokens` and the response text,
which is the input unchanged when `markUnknown` is set, else the result of
the `re.sub` strip. -/
def maybeStripMarks (storeConfigured markUnknown : Bool) (pairStr translated : List Char) :
    List (List Char × List Char) × List Char :=
  (noteUnknownTokens storeConfigured pairStr translated,
   if markUnknown then translated else reSubStrip translated)

/-- Embeds the truthiness test `markUnknown in ['yes', 'true', '1']`
(servlet.py line 412). -/
def parseMarkUnknown (arg : List Char) : Bool :=
  arg == ['y', 'e', 's'] || arg == ['t', 'r', 'u', 'e'] || arg == ['1']

/-- Embeds `TranslateHandler.translateAndRespond` (servlet.py lines
410-424) up to the response: `notePairUsage` runs first, then the pipeline
translate (`outcome`; `none` models the yield raising, which aborts the
coroutine), then `logAfterTranslation` with the length of the INPUT text,
then the response body built by `maybeStripMarks`. -/
def translateAndRespond (maxAge : Int) (storeConfigured : Bool) (pair : PairKey)
    (markUnknownArg toTranslate : List Char) (outcome : Option (List Char))
    (before now : Int) (status : Nat) (stats : ReqStats) :
    ReqStats × Option (List Char) :=
  let mu := parseMarkUnknown markUnknownArg
  let stats1 := notePairUsage stats pair
  match outcome with
  | none => (stats1, none)
  | some translated =>
    let stats2 := { stats1 with
      timing := logAfterTranslation maxAge now before toTranslate.length status stats1.timing }
    (stats2, some (maybeStripMarks storeConfigured mu (pair.1 ++ '-' :: pair.2) translated).2)

/-- Whether the regex `UTF-?8` (compiled with `re.IGNORECASE`, servlet.py
line 990) matches at the head of the character list: the letters u, t, f
case-insensitively, an optional hyphen, then the digit 8. -/
def utf8AtHead : List Char → Bool
  | c1 :: c2 :: c3 :: rest =>
    (c1.toLower == 'u' && c2.toLower == 't' && c3.toLower == 'f') &&
    (match rest with
     | c4 :: rest2 =>
       if c4 == '8' then true
       else if c4 == '-' then
         (match rest2 with
          | c5 :: _ => c5 == '8'
          | [] => false)
       else false
     | [] => false)
  | _ => false

/-- Embeds `re.search(u8, s)` being non-None: the pattern matches at some
position of `s`. -/
def searchUTF8 : List Char → Bool
  | [] => false
  | c :: cs => utf8AtHead (c :: cs) || searchUTF8 cs

/-- The observable outcome of startup-time checks: proceed, or terminate
the process with an exit status. -/
inductive StartupResult where
  | proceed
  | exitWith (code : Nat)
deriving DecidableEq, Repr

/-- Embeds `sanity_check` (servlet.py lines 988-995): reads the `LANG` and
`LC_ALL` environment variables (absent modelled as `none`, read through
`os.environ.get(key, "")` as the empty string) and exits with status 1 when
neither contains a `UTF-?8` match. -/
def sanity_check (lang lc_all : Option (List Char)) : StartupResult :=
  if searchUTF8 (lang.getD []) || searchUTF8 (lc_all.getD []) then StartupResult.proceed
  else StartupResult.exitWith 1

/-- Embeds Python `str.split(sep)` for a one-character separator: the empty
string yields one empty part, and every occurrence of the separator starts
a new part. -/
def pySplit (sep : Char) : List Char → List (List Char)
  | [] => [[]]
  | c :: cs =>
    if c == sep then [] :: pySplit sep cs
    else
      match pySplit sep cs with
      | [] => [[c]]
      | t :: ts => (c :: t) :: ts

/-- Embeds `TranslateHandler.getPairOrError` (servlet.py lines 379-391):
splitting `langpair` at the pipe character must give exactly two parts
(otherwise the tuple unpacking raises `ValueError` and a 400 is sent); each
part goes through `toAlpha3Code` (a total function from util, taken as a
parameter); the joined key must be an installed pair, else a 400 is sent. -/
def getPairOrError (toAlpha3 : List Char → List Char) (pairs : List (List Char))
    (langpair : List Char) : Except Nat PairKey :=
  match pySplit '|' langpair with
  | [a, b] =>
    if (toAlpha3 a ++ '-' :: toAlpha3 b) ∈ pairs then Except.ok (toAlpha3 a, toAlpha3 b)
    else Except.error 400
  | _ => Except.error 400

/-- The observable outcome of `TranslateHandler.get`: the pool map after
the request, the pipeline acquired for translation (if any), and the HTTP
status sent. -/
structure GetOutcome where
  pools : List (PairKey × List Pipeline)
  acquired : Option Pipeline
  status : Nat
deriving DecidableEq, Repr

/-- Reads `self.pipelines.get(pair, [])` from the pool association list. -/
def lookupPool (pools : List (PairKey × List Pipeline)) (k : PairKey) : List Pipeline :=
  (((pools.find? (fun kv => kv.1 == k)).map Prod.snd)).getD []

/-- Writes `self.pipelines[pair] = v` in the pool association list. -/
def setPool (pools : List (PairKey × List Pipeline)) (k : PairKey) (v : List Pipeline) :
    List (PairKey × List Pipeline) :=
  if pools.any (fun kv => kv.1 == k) then
    pools.map (fun kv => if kv.1 == k then (k, v) else kv)
  else pools ++ [(k, v)]

/-- Embeds the front of `TranslateHandler.get` (servlet.py lines 426-438):
when `getPairOrError` errors, the handler returns without acquiring any
pipeline and without touching the pool map; otherwise `getPipeline` runs on
the pair's pool and the translation proceeds with the selected pipe. -/
def translateHandlerGet (toAlpha3 : List Char → List Char) (pairs : List (List Char))
    (cfg : Config) (pools : List (PairKey × List Pipeline)) (newPipe : Pipeline)
    (langpair : List Char) : GetOutcome :=
  match getPairOrError toAlpha3 pairs langpair with
  | Except.error c => { pools := pools, acquired := none, status := c }
  | Except.ok pair =>
    let res := getPipeline cfg (lookupPool pools pair) newPipe
    { pools := setPool pools pair res.1, acquired := res.2, status := 200 }

/-- C5: after every completed `cleanPairs` call, every pipeline remaining in
`pipelines_holding` has `users > 0`: any held pipeline whose users count has
reached zero is removed from the holding area during that call. -/
theorem cleanPairs_holding_users_pos (cfg : Config) (now : Int) (st : PoolState)
    (p : Pipeline) (hp : p ∈ (cleanPairs cfg now st).holding) : 0 < p.users := by
  simp only [cleanPairs, List.mem_filter, decide_eq_true_eq] at hp
  exact hp.2

/-- Witness for C5: a concrete `cleanPairs` call whose holding area retains
a pipe, which therefore has a positive users count. -/
theorem cleanPairs_holding_users_pos_witness :
    (⟨5, 2, 0, 0⟩ : Pipeline) ∈
      (cleanPairs ⟨1, 0, 5, 0, 1000⟩ 0 ⟨[], [⟨5, 2, 0, 0⟩]⟩).holding
    ∧ 0 < (⟨5, 2, 0, 0⟩ : Pipeline).users :=
  ⟨by decide, cleanPairs_holding_users_pos ⟨1, 0, 5, 0, 1000⟩ 0 ⟨[], [⟨5, 2, 0, 0⟩]⟩ _ (by decide)⟩

/-- C10: `logAfterTranslation` leaves the timing list unchanged whenever the
current response status is not 200; in particular a request answered with an
error (e.g. a 400 from `getPairOrError`) never appends a timing sample. -/
theorem logAfterTranslation_non200 (maxAge now before : Int) (n status : Nat)
    (timing : List (Int × Int × Nat)) (h : status ≠ 200) :
    logAfterTranslation maxAge now before n status timing = timing := by
  simp [logAfterTranslation, h]

/-- Witness for C10 at status 400 (the invalid-pair error path). -/
theorem logAfterTranslation_non200_witness :
    logAfterTranslation 3600 10 5 7 400 [((0 : Int), (0 : Int), (0 : Nat))] =
      [((0 : Int), (0 : Int), (0 : Nat))] :=
  logAfterTranslation_non200 3600 10 5 7 400 [((0 : Int), (0 : Int), (0 : Nat))] (by decide)

theorem searchUTF8_eq_false_iff (s : List Char) :
    searchUTF8 s = false ↔ ∀ i, utf8AtHead (s.drop i) = false := by
  induction s with
  | nil =>
    simp only [searchUTF8, List.drop_nil, true_iff]
    intro i
    rfl
  | cons c cs ih =>
    simp only [searchUTF8, Bool.or_eq_false_iff]
    constructor
    · rintro ⟨h1, h2⟩ i
      cases i with
      | zero => simpa using h1
      | succ j => simpa using (ih.mp h2) j
    · intro h
      exact ⟨by simpa using h 0, ih.mpr (fun j => by simpa using h (j + 1))⟩

/-- C8: at startup, `sanity_check` exits with status 1 exactly when neither
the LANG nor the LC_ALL environment variable contains a substring matching
`UTF-?8` case-insensitively (no position of either value matches); in every
other case it proceeds. -/
theorem sanity_check_exit_iff (lang lc_all : Option (List Char)) :
    (sanity_check lang lc_all = StartupResult.exitWith 1 ↔
      (∀ i, utf8AtHead ((lang.getD []).drop i) = false) ∧
      (∀ i, utf8AtHead ((lc_all.getD []).drop i) = false))
    ∧ (sanity_check lang lc_all = StartupResult.exitWith 1 ∨
        sanity_check lang lc_all = StartupResult.proceed) := by
  have key : sanity_check lang lc_all = StartupResult.exitWith 1 ↔
      (searchUTF8 (lang.getD []) = false ∧ searchUTF8 (lc_all.getD []) = false) := by
    unfold sanity_check
    cases hb1 : searchUTF8 (lang.getD []) <;> cases hb2 : searchUTF8 (lc_all.getD []) <;> simp
  constructor
  · rw [key, searchUTF8_eq_false_iff, searchUTF8_eq_false_iff]
  · unfold sanity_check
    split <;> simp

theorem scanUnknown_length (s : List Char) :
    (scanUnknown s).2.length + (scanUnknown s).1.length = s.length := by
  induction s using scanUnknown.induct with
  | case1 => simp [scanUnknown]
  | case2 c cs hc ih =>
    have hsplit := congrArg List.length
      (List.takeWhile_append_dropWhile (p := tokenChar) (l := cs))
    rw [List.length_append] at hsplit
    simp only [scanUnknown]
    rw [if_pos hc]
    simp only [List.length_append, List.length_cons]
    omega
  | case3 c cs hc ih =>
    simp only [scanUnknown]
    rw [if_neg hc]
    simp only [List.length_cons]
    omega

/-- C3: `maybeStripMarks` returns the text unchanged when the caller opted
into marking unknown tokens, and otherwise the `re.sub` strip of the text;
in both cases, when a missing-tokens store is configured, every token
matched by `unknownMarkRE` is recorded tagged with the pair.  The length
identity shows the strip removes exactly one leading star per matched
token; the closed conjunct is the spec scenario star-foo space bar. -/
theorem maybeStripMarks_spec (storeConfigured markUnknown : Bool) (pairStr text : List Char) :
    ((maybeStripMarks storeConfigured markUnknown pairStr text).2 =
      if markUnknown then text else reSubStrip text)
    ∧ ((maybeStripMarks storeConfigured markUnknown pairStr text).1 =
      if storeConfigured then (reFindall text).map (fun tok => (tok, pairStr)) else [])
    ∧ (reSubStrip text).length + (reFindall text).length = text.length
    ∧ reSubStrip ['*', 'f', 'o', 'o', ' ', 'b', 'a', 'r'] = ['f', 'o', 'o', ' ', 'b', 'a', 'r']
    ∧ reFindall ['*', 'f', 'o', 'o', ' ', 'b', 'a', 'r'] = [['f', 'o', 'o']] :=
  ⟨rfl, rfl, scanUnknown_length text,
   by simp [reSubStrip, scanUnknown, tokenChar, List.takeWhile, List.dropWhile],
   by simp [reFindall, scanUnknown, tokenChar, List.takeWhile, List.dropWhile]⟩

/-- C7 counterexample: `logAfterTranslation` pops at most ONE sample per
call, so with two samples older than the window (here age 10000 and 9999
against a 3600-second window) one expired sample survives the call. -/
theorem logAfterTranslation_old_sample_survives :
    ¬ (∀ s ∈ logAfterTranslation 3600 10000 9999 5 200
        [((0 : Int), (0 : Int), (0 : Nat)), ((1 : Int), (1 : Int), (0 : Nat))],
        10000 - s.1 ≤ 3600) := by decide

/-- C7 (amended): `logAfterTranslation` evicts at most one sample — the
oldest — per successful call.  The window invariant therefore holds only
incrementally: provided every sample except possibly the oldest was within
`STAT_PERIOD_MAX_AGE` before the call, and the new sample is within the
window, every sample remaining after the call is within the window. -/
theorem logAfterTranslation_window_bound (maxAge now before : Int) (n : Nat)
    (timing : List (Int × Int × Nat))
    (h1 : ∀ s ∈ timing.tail, now - s.1 ≤ maxAge) (h2 : now - before ≤ maxAge) :
    ∀ s ∈ logAfterTranslation maxAge now before n 200 timing, now - s.1 ≤ maxAge := by
  intro s hs
  simp only [logAfterTranslation, if_pos rfl] at hs
  cases timing with
  | nil =>
    simp only [List.tail_nil, ite_self, if_true, List.nil_append, List.mem_singleton] at hs
    rcases hs with rfl
    exact h2
  | cons t ts =>
    by_cases hold : maxAge < now - t.1
    · rw [if_pos hold] at hs
      rcases List.mem_append.mp hs with hmem | hmem
      · exact h1 s (by simpa using hmem)
      · rcases List.mem_singleton.mp hmem with rfl
        exact h2
    · rw [if_neg hold] at hs
      rcases List.mem_append.mp hs with hmem | hmem
      · rcases List.mem_cons.mp hmem with rfl | hmem
        · exact le_of_not_lt hold
        · exact h1 s (by simpa using hmem)
      · rcases List.mem_singleton.mp hmem with rfl
        exact h2

/-- Witness for C7 (amended): a call on a one-sample list within the
window keeps every sample within the window. -/
theorem logAfterTranslation_window_bound_witness :
    (∀ s ∈ ([((6500 : Int), (6600 : Int), (3 : Nat))] :
        List (Int × Int × Nat)).tail, (10000 : Int) - s.1 ≤ 3600)
    ∧ ((10000 : Int) - 9999 ≤ 3600)
    ∧ ∀ s ∈ logAfterTranslation 3600 10000 9999 5 200
        [((6500 : Int), (6600 : Int), (3 : Nat))], 10000 - s.1 ≤ 3600 :=
  ⟨by decide, by decide,
   logAfterTranslation_window_bound 3600 10000 9999 5 _ (by decide) (by decide)⟩

/-- C2 counterexample: a request whose pipeline translate step fails
(outcome `none`, i.e. the yield raised) does NOT leave `useCount[pair]`
unchanged — `notePairUsage` already ran before the translate. -/
theorem useCount_bumped_on_failed_translate :
    ¬ (((translateAndRespond 3600 false (['a'], ['b']) [] [] none 0 1 200
        ⟨fun _ => 0, []⟩).1).useCount (['a'], ['b']) =
      (⟨fun _ => 0, []⟩ : ReqStats).useCount (['a'], ['b'])) := by
  simp [translateAndRespond, notePairUsage]

/-- C2 (amended): every `/translate` request that reaches
`translateAndRespond` increments `useCount[pair]` by exactly 1 and leaves
every other pair's count unchanged, whether or not the pipeline translate
step then succeeds: `notePairUsage` runs before the translate, so a failing
translate still counts. -/
theorem translateAndRespond_useCount (maxAge : Int) (storeConfigured : Bool) (pair : PairKey)
    (markUnknownArg toTranslate : List Char) (outcome : Option (List Char))
    (before now : Int) (status : Nat) (stats : ReqStats) :
    ((translateAndRespond maxAge storeConfigured pair markUnknownArg toTranslate outcome
        before now status stats).1).useCount pair = 1 + stats.useCount pair
    ∧ ∀ q : PairKey, q ≠ pair →
      ((translateAndRespond maxAge storeConfigured pair markUnknownArg toTranslate outcome
          before now status stats).1).useCount q = stats.useCount q := by
  constructor
  · cases outcome <;> simp [translateAndRespond, notePairUsage]
  · intro q hq
    cases outcome <;> simp [translateAndRespond, notePairUsage, hq]

/-- Witness for C2 (amended) on a successful translate: the used pair's
count rises by one, a different pair's count is untouched. -/
theorem translateAndRespond_useCount_witness :
    ((translateAndRespond 3600 false (['a'], ['b']) [] [] (some []) 0 1 200
        ⟨fun _ => 0, []⟩).1).useCount (['a'], ['b']) =
      1 + (⟨fun _ => 0, []⟩ : ReqStats).useCount (['a'], ['b'])
    ∧ ((translateAndRespond 3600 false (['a'], ['b']) [] [] (some []) 0 1 200
        ⟨fun _ => 0, []⟩).1).useCount (['c'], ['d']) =
      (⟨fun _ => 0, []⟩ : ReqStats).useCount (['c'], ['d']) :=
  ⟨(translateAndRespond_useCount 3600 false (['a'], ['b']) [] [] (some []) 0 1 200
      ⟨fun _ => 0, []⟩).1,
   (translateAndRespond_useCount 3600 false (['a'], ['b']) [] [] (some []) 0 1 200
      ⟨fun _ => 0, []⟩).2 (['c'], ['d']) (by decide)⟩

/-- C1 counterexample: with `max_users_per_pipe = 5`, a single pipe whose
`users` EQUALS 5 (so `users ≥ max_users_per_pipe` holds) and room for a
second pipe, `shouldStartPipe` returns false: the code requires strict
inequality `users > max_users_per_pipe`. -/
theorem shouldStartPipe_at_threshold :
    shouldStartPipe ⟨2, 0, 5, 0, 1000⟩ [⟨0, 5, 0, 0⟩] = false
    ∧ (⟨2, 0, 5, 0, 1000⟩ : Config).max_users_per_pipe ≤ (⟨0, 5, 0, 0⟩ : Pipeline).users
    ∧ ([(⟨0, 5, 0, 0⟩ : Pipeline)]).length < (⟨2, 0, 5, 0, 1000⟩ : Config).max_pipes_per_pair := by
  decide

/-- C1 (amended): `shouldStartPipe` returns true exactly when the pool
entry for the pair is empty or absent, or when the front (least-loaded)
pipe of the heap has `users` STRICTLY GREATER than `max_users_per_pipe`
while the pool has fewer than `max_pipes_per_pair` pipes; when it returns
true, `getPipeline` creates and heap-inserts the new pipeline (growing the
pool by one), and when false it leaves the pool unchanged. -/
theorem shouldStartPipe_iff_getPipeline_starts (cfg : Config) (pipes : List Pipeline)
    (np : Pipeline) :
    (shouldStartPipe cfg pipes = true ↔
      pipes = [] ∨ ∃ m, pipes.head? = some m ∧ cfg.max_users_per_pipe < m.users ∧
        pipes.length < cfg.max_pipes_per_pair)
    ∧ (shouldStartPipe cfg pipes = true →
        (getPipeline cfg pipes np).1.length = pipes.length + 1 ∧
        np ∈ (getPipeline cfg pipes np).1)
    ∧ (shouldStartPipe cfg pipes = false → (getPipeline cfg pipes np).1 = pipes) := by
  refine ⟨?_, ?_, ?_⟩
  · cases pipes with
    | nil => simp [shouldStartPipe]
    | cons m rest =>
      simp only [shouldStartPipe, Bool.and_eq_true, decide_eq_true_eq, List.head?_cons,
        List.length_cons, List.cons_ne_nil, false_or, Option.some.injEq]
      constructor
      · rintro ⟨hlen, husers⟩
        exact ⟨m, rfl, husers, hlen⟩
      · rintro ⟨m2, rfl, husers, hlen⟩
        exact ⟨hlen, husers⟩
  · intro h
    simp only [getPipeline, if_pos h]
    exact ⟨heappush_length pipes np, heappush_mem.mpr (Or.inl rfl)⟩
  · intro h
    simp [getPipeline, h]

/-- Witness for C1 (amended): an empty pool starts a pipe and the created
pipeline is inserted. -/
theorem shouldStartPipe_iff_getPipeline_starts_witness :
    shouldStartPipe ⟨2, 0, 5, 0, 1000⟩ [] = true
    ∧ (getPipeline ⟨2, 0, 5, 0, 1000⟩ [] ⟨7, 0, 0, 0⟩).1.length =
        ([] : List Pipeline).length + 1
    ∧ (⟨7, 0, 0, 0⟩ : Pipeline) ∈ (getPipeline ⟨2, 0, 5, 0, 1000⟩ [] ⟨7, 0, 0, 0⟩).1 :=
  ⟨by decide,
   ((shouldStartPipe_iff_getPipeline_starts ⟨2, 0, 5, 0, 1000⟩ [] ⟨7, 0, 0, 0⟩).2.1
      (by decide)).1,
   ((shouldStartPipe_iff_getPipeline_starts ⟨2, 0, 5, 0, 1000⟩ [] ⟨7, 0, 0, 0⟩).2.1
      (by decide)).2⟩

theorem cleanable_eq_true_iff (cfg : Config) (now : Int) (i : Nat) (p : Pipeline) :
    cleanable cfg now i p = true ↔
      (cfg.restart_pipe_after < p.useCount ∨
        (cfg.min_pipes_per_pair ≤ i ∧ cfg.max_idle_secs ≠ 0 ∧
          cfg.max_idle_secs < now - p.lastUsage)) := by
  by_cases h1 : cfg.restart_pipe_after < p.useCount
  · simp [cleanable, h1]
  · by_cases h2 : cfg.min_pipes_per_pair ≤ i ∧ cfg.max_idle_secs ≠ 0 ∧
        cfg.max_idle_secs < now - p.lastUsage
    · simp [cleanable, h1, h2]
    · simp [cleanable, h1, h2]

theorem mem_to_clean_aux (cfg : Config) (now : Int) (p : Pipeline) (ps : List Pipeline) :
    ∀ i : Nat, p ∈ to_clean_aux cfg now i ps ↔
      ∃ j, ps[j]? = some p ∧ cleanable cfg now (i + j) p = true := by
  induction ps with
  | nil => intro i; simp [to_clean_aux]
  | cons q qs ih =>
    intro i
    simp only [to_clean_aux]
    by_cases hq : cleanable cfg now i q = true
    · rw [if_pos hq]
      constructor
      · intro h
        rcases List.mem_cons.mp h with rfl | h
        · exact ⟨0, by simp, by simpa using hq⟩
        · rcases (ih (i + 1)).mp h with ⟨j, hj1, hj2⟩
          exact ⟨j + 1, by simpa using hj1, by
            have : i + (j + 1) = i + 1 + j := by omega
            rw [this]; exact hj2⟩
      · rintro ⟨j, hj1, hj2⟩
        cases j with
        | zero =>
          simp only [List.getElem?_cons_zero, Option.some.injEq] at hj1
          subst hj1
          exact List.mem_cons_self _ _
        | succ j =>
          simp only [List.getElem?_cons_succ] at hj1
          refine List.mem_cons_of_mem _ ((ih (i + 1)).mpr ⟨j, hj1, ?_⟩)
          have : i + 1 + j = i + (j + 1) := by omega
          rw [this]; exact hj2
    · rw [if_neg hq]
      constructor
      · intro h
        rcases (ih (i + 1)).mp h with ⟨j, hj1, hj2⟩
        exact ⟨j + 1, by simpa using hj1, by
          have : i + (j + 1) = i + 1 + j := by omega
          rw [this]; exact hj2⟩
      · rintro ⟨j, hj1, hj2⟩
        cases j with
        | zero =>
          simp only [List.getElem?_cons_zero, Option.some.injEq] at hj1
          subst hj1
          simp only [Nat.add_zero] at hj2
          exact absurd hj2 hq
        | succ j =>
          simp only [List.getElem?_cons_succ] at hj1
          refine (ih (i + 1)).mpr ⟨j, hj1, ?_⟩
          have : i + 1 + j = i + (j + 1) := by omega
          rw [this]; exact hj2

/-- C4 (amended): the cleaning step `cleanPairs` applies to every pool
evicts a pipe — removing it from the pool and placing it in the set
appended to the holding area — exactly when `useCount > restart_pipe_after`
(regardless of heap index), or its index `i` in the heap satisfies
`i ≥ min_pipes_per_pair` while `max_idle_secs ≠ 0` (the code tests nonzero,
not positive) and `now - lastUsage > max_idle_secs`; no other pipe is
evicted. -/
theorem cleanOnePool_evicts_iff (cfg : Config) (now : Int) (pipes : List Pipeline)
    (p : Pipeline) (hp : p ∈ pipes) :
    (p ∉ (cleanOnePool cfg now pipes).1 ↔ p ∈ (cleanOnePool cfg now pipes).2)
    ∧ (p ∈ (cleanOnePool cfg now pipes).2 ↔
        ∃ i, pipes[i]? = some p ∧
          (cfg.restart_pipe_after < p.useCount ∨
            (cfg.min_pipes_per_pair ≤ i ∧ cfg.max_idle_secs ≠ 0 ∧
              cfg.max_idle_secs < now - p.lastUsage))) := by
  have h2 : p ∈ (cleanOnePool cfg now pipes).2 ↔
      ∃ i, pipes[i]? = some p ∧
        (cfg.restart_pipe_after < p.useCount ∨
          (cfg.min_pipes_per_pair ≤ i ∧ cfg.max_idle_secs ≠ 0 ∧
            cfg.max_idle_secs < now - p.lastUsage)) := by
    simp only [cleanOnePool, to_clean]
    rw [mem_to_clean_aux]
    simp only [Nat.zero_add, cleanable_eq_true_iff]
  refine ⟨?_, h2⟩
  simp only [cleanOnePool]
  rw [heapify_mem, List.mem_filter]
  simp only [decide_eq_true_eq]
  constructor
  · intro h
    by_contra hnot
    exact h ⟨hp, hnot⟩
  · intro h hcontra
    exact hcontra.2 h

/-- C4 counterexample: with `max_idle_secs = -1` (not positive, but
nonzero), a fresh pipe (useCount 0, not yet idle at all) is nevertheless
evicted, although neither of the claim's conditions — `useCount >
restart_pipe_after`, or idle eviction requiring `max_idle_secs > 0` —
holds. -/
theorem cleanOnePool_negative_idle_evicts :
    (⟨0, 0, 0, 0⟩ : Pipeline) ∈ (cleanOnePool ⟨1, 0, 5, -1, 1000⟩ 0 [⟨0, 0, 0, 0⟩]).2
    ∧ (⟨0, 0, 0, 0⟩ : Pipeline) ∉ (cleanOnePool ⟨1, 0, 5, -1, 1000⟩ 0 [⟨0, 0, 0, 0⟩]).1
    ∧ ¬ ((⟨1, 0, 5, -1, 1000⟩ : Config).restart_pipe_after <
        (⟨0, 0, 0, 0⟩ : Pipeline).useCount)
    ∧ ¬ ((0 : Int) < (⟨1, 0, 5, -1, 1000⟩ : Config).max_idle_secs) := by decide

/-- Witness for C4 (amended): a pipe past its `restart_pipe_after` budget
is evicted from the pool. -/
theorem cleanOnePool_evicts_iff_witness :
    (⟨0, 0, 2000, 0⟩ : Pipeline) ∉ (cleanOnePool ⟨1, 0, 5, 0, 1000⟩ 0 [⟨0, 0, 2000, 0⟩]).1 :=
  (cleanOnePool_evicts_iff ⟨1, 0, 5, 0, 1000⟩ 0 [⟨0, 0, 2000, 0⟩] ⟨0, 0, 2000, 0⟩
      (by decide)).1.mpr (by decide)

theorem stepPair_length_le (cfg : Config) (h : 1 ≤ cfg.max_pipes_per_pair)
    (pipes : List Pipeline) (hlen : pipes.length ≤ cfg.max_pipes_per_pair) (op : PairOp) :
    (stepPair cfg pipes op).length ≤ cfg.max_pipes_per_pair := by
  cases op with
  | getPipe np =>
    simp only [stepPair, getPipeline]
    by_cases hs : shouldStartPipe cfg pipes = true
    · rw [if_pos hs, heappush_length]
      cases pipes with
      | nil => simpa using h
      | cons m rest =>
        simp only [shouldStartPipe, Bool.and_eq_true, decide_eq_true_eq] at hs
        simp only [List.length_cons]
        omega
    · rw [if_neg hs]
      exact hlen
  | clean now =>
    simp only [stepPair, cleanOnePool]
    rw [heapify_length]
    exact le_trans (List.length_filter_le _ _) hlen

/-- C6 counterexample: with `max_pipes_per_pair = 0`, a single `getPipeline`
on the empty pool already creates one pipe, so the pool size exceeds the
configured maximum. -/
theorem runPair_bound_fails_at_zero_max :
    ¬ ((runPair ⟨0, 0, 5, 0, 1000⟩ [] [PairOp.getPipe ⟨0, 0, 0, 0⟩]).length ≤
      (⟨0, 0, 5, 0, 1000⟩ : Config).max_pipes_per_pair) := by decide

/-- C6 (amended): provided `max_pipes_per_pair ≥ 1`, for every pair and
every sequence of `getPipeline` and `cleanPairs` pool operations starting
from a pool within the bound, the number of pipelines in the pair's pool
never exceeds `max_pipes_per_pair` (the code starts a pipe unconditionally
when the pool is empty, so `max_pipes_per_pair = 0` is violated at once). -/
theorem runPair_length_le (cfg : Config) (h : 1 ≤ cfg.max_pipes_per_pair)
    (ops : List PairOp) (pipes : List Pipeline)
    (hlen : pipes.length ≤ cfg.max_pipes_per_pair) :
    (runPair cfg pipes ops).length ≤ cfg.max_pipes_per_pair := by
  induction ops generalizing pipes with
  | nil => simpa [runPair] using hlen
  | cons op ops ih =>
    simp only [runPair, List.foldl] at ih ⊢
    exact ih (stepPair cfg pipes op) (stepPair_length_le cfg h pipes hlen op)

/-- Witness for C6 (amended): two pipe starts and a clean on a
one-pipe-maximum pool stay within the bound. -/
theorem runPair_length_le_witness :
    (1 ≤ (⟨1, 0, 5, 0, 1000⟩ : Config).max_pipes_per_pair)
    ∧ (runPair ⟨1, 0, 5, 0, 1000⟩ []
        [PairOp.getPipe ⟨0, 0, 0, 0⟩, PairOp.getPipe ⟨1, 9, 9, 9⟩,
          PairOp.clean 50]).length ≤ (⟨1, 0, 5, 0, 1000⟩ : Config).max_pipes_per_pair :=
  ⟨by decide,
   runPair_length_le ⟨1, 0, 5, 0, 1000⟩ (by decide)
     [PairOp.getPipe ⟨0, 0, 0, 0⟩, PairOp.getPipe ⟨1, 9, 9, 9⟩, PairOp.clean 50] []
     (by decide)⟩

/-- C9: `getPairOrError` responds 400 and yields no pair exactly when the
`langpair` argument does not split at the pipe character into two parts
whose canonicalized codes form an installed pair key; and on that error
path `TranslateHandler.get` acquires no pipeline and leaves the pool map
untouched, so no translation is attempted. -/
theorem getPairOrError_spec (toAlpha3 : List Char → List Char) (pairs : List (List Char))
    (cfg : Config) (pools : List (PairKey × List Pipeline)) (np : Pipeline)
    (langpair : List Char) :
    (getPairOrError toAlpha3 pairs langpair = Except.error 400 ↔
      ∀ a b, pySplit '|' langpair = [a, b] → (toAlpha3 a ++ '-' :: toAlpha3 b) ∉ pairs)
    ∧ (getPairOrError toAlpha3 pairs langpair = Except.error 400 →
        translateHandlerGet toAlpha3 pairs cfg pools np langpair =
          { pools := pools, acquired := none, status := 400 }) := by
  constructor
  · unfold getPairOrError
    rcases hsp : pySplit '|' langpair with _ | ⟨a, _ | ⟨b, _ | ⟨c, rest⟩⟩⟩
    · simp
    · simp
    · by_cases hmem : (toAlpha3 a ++ '-' :: toAlpha3 b) ∈ pairs
      · simp only [hmem, if_true, reduceCtorEq, false_iff, not_forall]
        exact ⟨a, b, rfl, fun hn => hn hmem⟩
      · simp only [hmem, if_false, true_iff]
        intro a2 b2 he
        rcases he with ⟨rfl, rfl⟩
        exact hmem
    · simp
  · intro h
    unfold translateHandlerGet
    rw [h]

/-- Witness for C9: a langpair without a pipe separator yields a 400 and
the handler acquires no pipeline and leaves the pool map untouched. -/
theorem getPairOrError_spec_witness :
    getPairOrError (fun s => s) [] ['e', 'n'] = Except.error 400
    ∧ translateHandlerGet (fun s => s) [] ⟨1, 0, 5, 0, 1000⟩ [] ⟨0, 0, 0, 0⟩ ['e', 'n'] =
      { pools := [], acquired := none, status := 400 } :=
  ⟨rfl,
   (getPairOrError_spec (fun s => s) [] ⟨1, 0, 5, 0, 1000⟩ [] ⟨0, 0, 0, 0⟩ ['e', 'n']).2 rfl⟩

end Apy
